import Mathlib

/-!
Shallow embedding of the `shotgun` oneshot SPMC channel
(src/src/shotgun.rs, async variant with wakers, and src/src/lib.rs,
the synchronous-only variant).

The shared cell `_Receiver` is protected by a mutex in the source; every
public operation acquires the lock, performs one pure transformation of the
cell, and releases the lock.  The embedding therefore models each operation
as a pure function on the cell state, and reachable histories as a fold of
an operation list over the cell produced by `channel`.  All `Receiver`
duplicates alias the same cell (they clone the `Arc`), so a duplicate is
represented by the shared cell itself and `Op.clone` is the identity on it.
-/

/-- Model of `std::task::Waker`: `task` identifies the task the handle wakes,
`tag` distinguishes distinct clones of a waker for the same task (cloned
wakers are different values but `will_wake` each other). -/
structure Waker where
  task : Nat
  tag : Nat
deriving DecidableEq

/-- Model of `Waker::will_wake`: true iff the two handles would wake the
same task. -/
def Waker.willWake (a b : Waker) : Bool :=
  a.task == b.task

/-- Model of `std::task::Poll`. -/
inductive Poll (T : Type) where
  | ready (value : T)
  | pending
deriving DecidableEq

/-- Inner receiver of a channel (`_Receiver` in src/src/shotgun.rs):
the mutex-guarded shared cell holding the sent value and the wakers
registered by suspended consumers. -/
structure _Receiver (T : Type) where
  value : Option T
  wakers : List Waker
deriving DecidableEq

/-- Model of `_Receiver::try_recv` (src/src/shotgun.rs lines 215-217):
clones the value, if present, and returns the clone.  The public
`Receiver::try_recv` acquires the lock and delegates here unchanged. -/
def _Receiver.try_recv {T : Type} (c : _Receiver T) : Option T :=
  c.value

/-- Model of `_Receiver::set` (src/src/shotgun.rs lines 220-226): stores
`some value` into the cell, then wakes every waker of a clone of
`self.wakers`, in order.  The first component is the updated cell, the
second the sequence of wake handles notified, in notification order. -/
def _Receiver.set {T : Type} (c : _Receiver T) (value : T) :
    _Receiver T × List Waker :=
  ({ c with value := some value }, c.wakers)

/-- Model of `impl Future for Receiver`, `fn poll` (src/src/shotgun.rs
lines 237-248), acting on the locked inner cell: if the value is present,
return `Ready` with a clone of it; otherwise push the current waker unless
some registered waker already `will_wake`s the same task, and return
`Pending`.  Returns the poll result together with the cell after the call. -/
def Receiver.poll {T : Type} (c : _Receiver T) (w : Waker) :
    Poll T × _Receiver T :=
  match c.value with
  | some v => (Poll.ready v, c)
  | none =>
    if c.wakers.all (fun w2 => ! w2.willWake w) then
      (Poll.pending, { c with wakers := c.wakers ++ [w] })
    else
      (Poll.pending, c)

/-- Inner sender (`_Sender` in src/src/shotgun.rs): holds an optional
reference to the channel's shared cell.  There is exactly one cell per
channel and it is passed explicitly, so the `Arc` reference is modelled by
`Option Unit`. -/
structure _Sender (T : Type) where
  receiver : Option Unit

/-- Model of `_Sender::send` (src/src/shotgun.rs lines 261-265): if the
receiver reference is present, lock the cell and `set` the value on it;
otherwise do nothing.  `Sender::send` (line 181-183) consumes the sender
and delegates here.  Returns the cell after the call and the notified
wakers. -/
def _Sender.send {T : Type} (s : _Sender T) (c : _Receiver T) (value : T) :
    _Receiver T × List Waker :=
  match s.receiver with
  | some _ => c.set value
  | none => (c, [])

/-- Model of `channel` (src/src/shotgun.rs lines 277-297): a fresh sender
whose receiver reference is set, together with a fresh empty cell (no
value, no wakers).  The public `Receiver` is the `Arc` around this cell,
so the cell itself stands for the receiver handle and all its clones. -/
def channel (T : Type) : _Sender T × _Receiver T :=
  ({ receiver := some () }, { value := none, wakers := [] })

/-- The operations reachable through the public interface, acting on the
shared cell.  `clone` is `Receiver::clone` (clones the `Arc`, cell
untouched); `tryRecv` is `Receiver::try_recv` (reads under the lock, cell
untouched); `poll` is one `Future::poll` call by a task with waker `w`;
`send` is `Sender::send` of value `v` (possible at most once per channel,
because the sender is consumed by value). -/
inductive Op (T : Type) where
  | send (v : T)
  | poll (w : Waker)
  | tryRecv
  | clone
deriving DecidableEq

/-- Effect of one public operation on the shared cell. -/
def Op.step {T : Type} (c : _Receiver T) (op : Op T) : _Receiver T :=
  match op with
  | Op.send v => (c.set v).1
  | Op.poll w => (Receiver.poll c w).2
  | Op.tryRecv => c
  | Op.clone => c

/-- Cell state after a history of public operations. -/
def runOps {T : Type} (c : _Receiver T) (ops : List (Op T)) : _Receiver T :=
  ops.foldl Op.step c

/-- Values transmitted by the `send` operations of a history, in order. -/
def sentValues {T : Type} (ops : List (Op T)) : List T :=
  ops.filterMap (fun op => match op with | Op.send v => some v | _ => none)

/-- A history that contains no `send` operation. -/
def NoSend {T : Type} (ops : List (Op T)) : Prop :=
  ∀ v : T, Op.send v ∉ ops

/-- Inner receiver of the synchronous-only channel in src/src/lib.rs
(there called `_Receiver`; renamed here because the async variant already
uses that name): just the optional sent value. -/
structure LibReceiver (T : Type) where
  value : Option T
deriving DecidableEq

/-- Model of `_Receiver::try_recv` in src/src/lib.rs (lines 152-154). -/
def LibReceiver.try_recv {T : Type} (c : LibReceiver T) : Option T :=
  c.value

/-- Model of `_Receiver::set` in src/src/lib.rs (lines 157-159):
unconditionally stores `some value`. -/
def LibReceiver.set {T : Type} (c : LibReceiver T) (value : T) :
    LibReceiver T :=
  { c with value := some value }

-- Sanity examples (concrete evaluation of the embedding).
example : ((channel Nat).2.set 12).1.try_recv = some 12 := by decide
example : (channel Nat).2.try_recv = none := by decide
example :
    (Receiver.poll (channel Nat).2 ⟨0, 0⟩).1 = Poll.pending := by decide
example :
    ((Receiver.poll (channel Nat).2 ⟨0, 0⟩).2).wakers = [⟨0, 0⟩] := by decide
example :
    (Receiver.poll ((Receiver.poll (channel Nat).2 ⟨0, 0⟩).2) ⟨0, 1⟩).2.wakers
      = [⟨0, 0⟩] := by decide

/-!
Helper lemmas about the evolution of the cell along a history.
-/

/-- Contents of the `value` field after a history, tracked directly:
the value of the last `send` in the history, or the initial contents if the
history sends nothing. -/
def lastValue {T : Type} (init : Option T) (ops : List (Op T)) : Option T :=
  ops.foldl (fun acc op => match op with | Op.send v => some v | _ => acc) init

lemma poll_snd_value {T : Type} (c : _Receiver T) (w : Waker) :
    ((Receiver.poll c w).2).value = c.value := by
  unfold Receiver.poll
  cases h : c.value <;> simp [h]
  split <;> simp [h]

lemma step_value {T : Type} (c : _Receiver T) (op : Op T) :
    (Op.step c op).value =
      match op with
      | Op.send v => some v
      | _ => c.value := by
  cases op with
  | send v => rfl
  | poll w => exact poll_snd_value c w
  | tryRecv => rfl
  | clone => rfl

lemma runOps_value {T : Type} (c : _Receiver T) (ops : List (Op T)) :
    (runOps c ops).value = lastValue c.value ops := by
  induction ops generalizing c with
  | nil => rfl
  | cons op rest ih =>
    show (runOps (Op.step c op) rest).value = _
    rw [ih]
    cases op <;> simp [lastValue, step_value]

lemma lastValue_append {T : Type} (i : Option T) (a b : List (Op T)) :
    lastValue i (a ++ b) = lastValue (lastValue i a) b := by
  simp [lastValue, List.foldl_append]

lemma sentValues_append {T : Type} (a b : List (Op T)) :
    sentValues (a ++ b) = sentValues a ++ sentValues b := by
  simp [sentValues]

lemma mem_sentValues {T : Type} (a : T) (ops : List (Op T)) :
    a ∈ sentValues ops ↔ Op.send a ∈ ops := by
  simp only [sentValues, List.mem_filterMap]
  constructor
  · rintro ⟨op, hmem, hop⟩
    cases op <;> simp_all
  · intro h
    exact ⟨Op.send a, h, rfl⟩

lemma sentValues_eq_nil_iff {T : Type} (ops : List (Op T)) :
    sentValues ops = [] ↔ NoSend ops := by
  rw [List.eq_nil_iff_forall_not_mem]
  constructor
  · intro h v hv
    exact h v ((mem_sentValues v ops).mpr hv)
  · intro h v hv
    exact h v ((mem_sentValues v ops).mp hv)

lemma lastValue_of_sentValues_nil {T : Type} (i : Option T)
    (ops : List (Op T)) (h : sentValues ops = []) : lastValue i ops = i := by
  induction ops generalizing i with
  | nil => rfl
  | cons op rest ih =>
    cases op with
    | send v => simp [sentValues] at h
    | poll w => exact ih i (by simpa [sentValues] using h)
    | tryRecv => exact ih i (by simpa [sentValues] using h)
    | clone => exact ih i (by simpa [sentValues] using h)

lemma lastValue_noSend {T : Type} (i : Option T) (ops : List (Op T))
    (h : NoSend ops) : lastValue i ops = i :=
  lastValue_of_sentValues_nil i ops ((sentValues_eq_nil_iff ops).mpr h)

lemma lastValue_some_mem {T : Type} (i : Option T) (ops : List (Op T))
    (a : T) (h : lastValue i ops = some a) : i = some a ∨ Op.send a ∈ ops := by
  induction ops generalizing i with
  | nil => exact Or.inl h
  | cons op rest ih =>
    cases op with
    | send v =>
      rcases ih (some v) h with h2 | h2
      · exact Or.inr (by simp_all)
      · exact Or.inr (List.mem_cons_of_mem _ h2)
    | poll w =>
      rcases ih i h with h2 | h2
      · exact Or.inl h2
      · exact Or.inr (List.mem_cons_of_mem _ h2)
    | tryRecv =>
      rcases ih i h with h2 | h2
      · exact Or.inl h2
      · exact Or.inr (List.mem_cons_of_mem _ h2)
    | clone =>
      rcases ih i h with h2 | h2
      · exact Or.inl h2
      · exact Or.inr (List.mem_cons_of_mem _ h2)

/-!
Helper lemmas about the waker registry.
-/

/-- The registry invariant: no two registered handles would wake the same
task (in particular the registry has no duplicate handles). -/
def WakersOk (l : List Waker) : Prop :=
  l.Pairwise (fun a b => a.willWake b = false)

lemma willWake_self (w : Waker) : w.willWake w = true := by
  simp [Waker.willWake]

lemma set_fst_wakers {T : Type} (c : _Receiver T) (v : T) :
    ((c.set v).1).wakers = c.wakers := rfl

lemma poll_snd_wakers_pairwise {T : Type} (c : _Receiver T) (w : Waker)
    (h : WakersOk c.wakers) : WakersOk ((Receiver.poll c w).2).wakers := by
  unfold Receiver.poll
  cases hv : c.value with
  | some v => exact h
  | none =>
    simp only
    split
    next hguard =>
      show WakersOk (c.wakers ++ [w])
      refine List.pairwise_append.mpr ⟨h, List.pairwise_singleton _ _, ?_⟩
      intro a ha b hb
      rw [List.mem_singleton] at hb
      subst hb
      have := List.all_eq_true.mp hguard a ha
      simpa using this
    next hguard => exact h

lemma step_wakers_pairwise {T : Type} (c : _Receiver T) (op : Op T)
    (h : WakersOk c.wakers) : WakersOk ((Op.step c op).wakers) := by
  cases op with
  | send v => exact h
  | poll w => exact poll_snd_wakers_pairwise c w h
  | tryRecv => exact h
  | clone => exact h

lemma runOps_wakers_pairwise {T : Type} (c : _Receiver T)
    (ops : List (Op T)) (h : WakersOk c.wakers) :
    WakersOk ((runOps c ops).wakers) := by
  induction ops generalizing c with
  | nil => exact h
  | cons op rest ih => exact ih (Op.step c op) (step_wakers_pairwise c op h)

lemma poll_already_registered {T : Type} (c : _Receiver T) (w w2 : Waker)
    (hmem : w2 ∈ c.wakers) (hw : w2.willWake w = true) :
    (Receiver.poll c w).2 = c := by
  unfold Receiver.poll
  cases hv : c.value with
  | some v => rfl
  | none =>
    have hall : (c.wakers.all fun x => ! x.willWake w) = false := by
      rw [List.all_eq_false]
      exact ⟨w2, hmem, by simp [hw]⟩
    simp only [hall]
    rfl

lemma wakersOk_nodup (l : List Waker) (h : WakersOk l) : l.Nodup := by
  refine h.imp ?_
  intro a b hab
  intro hEq
  subst hEq
  rw [willWake_self] at hab
  exact Bool.true_eq_false.mp hab

lemma poll_of_value_some {T : Type} (c : _Receiver T) (w : Waker) (v : T)
    (h : c.value = some v) : Receiver.poll c w = (Poll.ready v, c) := by
  unfold Receiver.poll
  rw [h]

lemma poll_fst_ready_value {T : Type} (c : _Receiver T) (w : Waker) (v : T)
    (h : (Receiver.poll c w).1 = Poll.ready v) : c.value = some v := by
  unfold Receiver.poll at h
  cases hv : c.value with
  | some u => rw [hv] at h; cases h; rfl
  | none =>
    rw [hv] at h
    simp only at h
    split at h <;> cases h

/-!
The suspension path: `Receiver::recv` is `self.await`, i.e. the Rust
await machinery driving `Future::poll` for this `Receiver` until it yields
`Ready`.  The external executor is modelled by a schedule: between two
consecutive polls of this task, the environment performs an arbitrary batch
of public operations (e.g. the `send`) on the shared cell.
-/

/-- Model of `Receiver::recv` (src/src/shotgun.rs lines 160-162,
`self.await`): poll the receiver; on `Ready v` return `v` (together with
the shared cell, which the remaining duplicates still reference); on
`Pending`, let the environment run its next batch of operations and poll
again when the schedule resumes the task.  Returns `none` if the schedule
ends before the value arrives (the task stays suspended). -/
def Receiver.recv {T : Type} (w : Waker) (c : _Receiver T)
    (sched : List (List (Op T))) : Option (T × _Receiver T) :=
  match sched with
  | [] => none
  | env :: rest =>
    match Receiver.poll c w with
    | (Poll.ready v, c2) => some (v, c2)
    | (Poll.pending, c2) => Receiver.recv w (runOps c2 env) rest

/-- Modelled from the spec (section 4.4), for comparison with the code:
"on each poll, acquire the lock; if the value is present, resume
immediately with that value (Ready); otherwise, register the current
task's wake handle (deduplicating against handles already known to refer
to the same task) and report suspension (Pending)". -/
def pollContract {T : Type} (c : _Receiver T) (w : Waker) :
    Poll T × _Receiver T :=
  match c.value with
  | some v => (Poll.ready v, c)
  | none =>
    if c.wakers.any (fun w2 => w2.willWake w) then
      (Poll.pending, c)
    else
      (Poll.pending, { c with wakers := c.wakers ++ [w] })

/-- Modelled from the spec (section 4.4), for comparison with the code:
"the recv(self) operation is equivalent to: suspend via this contract
until Ready, then return the value". -/
def recvContract {T : Type} (w : Waker) (c : _Receiver T)
    (sched : List (List (Op T))) : Option (T × _Receiver T) :=
  match sched with
  | [] => none
  | env :: rest =>
    match pollContract c w with
    | (Poll.ready v, c2) => some (v, c2)
    | (Poll.pending, c2) => recvContract w (runOps c2 env) rest

lemma poll_eq_pollContract {T : Type} (c : _Receiver T) (w : Waker) :
    Receiver.poll c w = pollContract c w := by
  unfold Receiver.poll pollContract
  cases hv : c.value with
  | some v => rfl
  | none =>
    simp only
    cases hx : (c.wakers.any fun w2 => w2.willWake w) with
    | true =>
      obtain ⟨w2, hmem, hw⟩ := List.any_eq_true.mp hx
      have hall : (c.wakers.all fun x => ! x.willWake w) = false := by
        rw [List.all_eq_false]
        exact ⟨w2, hmem, by simp [hw]⟩
      simp [hall]
    | false =>
      have hall : (c.wakers.all fun x => ! x.willWake w) = true := by
        rw [List.all_eq_true]
        intro x hxm
        have := List.any_eq_false.mp hx x hxm
        simp [this]
      simp [hall]

lemma recv_eq_recvContract {T : Type} (w : Waker) (c : _Receiver T)
    (sched : List (List (Op T))) :
    Receiver.recv w c sched = recvContract w c sched := by
  induction sched generalizing c with
  | nil => rfl
  | cons env rest ih =>
    unfold Receiver.recv recvContract
    rw [← poll_eq_pollContract]
    cases hp : Receiver.poll c w with
    | mk r c2 => cases r <;> simp [ih]

lemma recv_some_value {T : Type} (w : Waker) (c : _Receiver T)
    (sched : List (List (Op T))) (v : T) (c2 : _Receiver T)
    (h : Receiver.recv w c sched = some (v, c2)) : c2.value = some v := by
  induction sched generalizing c with
  | nil => cases h
  | cons env rest ih =>
    unfold Receiver.recv at h
    cases hp : Receiver.poll c w with
    | mk r c3 =>
      rw [hp] at h
      cases r with
      | ready u =>
        simp only at h
        cases h
        have h1 : (Receiver.poll c w).1 = Poll.ready v := by rw [hp]
        have h2 : c.value = some v := poll_fst_ready_value c w v h1
        have h3 : (Receiver.poll c w).2 = c := by rw [poll_of_value_some c w v h2]
        rw [hp] at h3
        simp only at h3
        rw [h3, h2]
      | pending => exact ih (runOps c3 env) h

lemma poll_of_value_none_fresh {T : Type} (c : _Receiver T) (w : Waker)
    (hv : c.value = none)
    (hg : (c.wakers.all fun w2 => ! w2.willWake w) = true) :
    Receiver.poll c w = (Poll.pending, { c with wakers := c.wakers ++ [w] }) := by
  unfold Receiver.poll
  rw [hv]
  simp [hg]

lemma poll_of_value_none_dup {T : Type} (c : _Receiver T) (w : Waker)
    (hv : c.value = none)
    (hg : (c.wakers.all fun w2 => ! w2.willWake w) = false) :
    Receiver.poll c w = (Poll.pending, c) := by
  unfold Receiver.poll
  rw [hv]
  simp [hg]

lemma noSend_replicate_clone {T : Type} (n : Nat) :
    NoSend (List.replicate n (Op.clone : Op T)) := by
  intro v hv
  have := List.eq_of_mem_replicate hv
  exact Op.noConfusion this

/-!
Claim theorems.
-/

/-- C1: once `send v` has been called on a channel, every call to
`try_recv` — on the shared cell, hence on every `Receiver` duplicate,
whether the duplicate existed before the send or is cloned afterwards —
returns `some v`; the result never changes and never regresses to `none`.
The histories before and after the send contain no further send because
the `Sender` is consumed by value. -/
theorem try_recv_const_after_send {T : Type} (v : T) (pre post : List (Op T))
    (_hpre : NoSend pre) (hpost : NoSend post) :
    (runOps (channel T).2 (pre ++ [Op.send v] ++ post)).try_recv = some v := by
  show (runOps (channel T).2 (pre ++ [Op.send v] ++ post)).value = some v
  rw [runOps_value, lastValue_append, lastValue_append,
    lastValue_noSend _ post hpost]
  simp [lastValue]

theorem try_recv_const_after_send_witness :
    NoSend ([Op.clone] : List (Op Nat)) ∧ NoSend ([Op.tryRecv] : List (Op Nat)) ∧
    (runOps (channel Nat).2 ([Op.clone] ++ [Op.send 12] ++ [Op.tryRecv])).try_recv
      = some 12 :=
  ⟨by intro v hv; simp at hv, by intro v hv; simp at hv,
    try_recv_const_after_send 12 [Op.clone] [Op.tryRecv]
      (by intro v hv; simp at hv) (by intro v hv; simp at hv)⟩

/-- C2: on a fresh channel produced by `channel`, after any number `n ≥ 0`
of `Receiver` duplications and any further history that contains no send
(polls, reads, more clones — including the history in which the `Sender`
is dropped and nothing is ever sent), `try_recv` returns `none` on every
duplicate. -/
theorem try_recv_none_before_send {T : Type} (n : Nat) (rest : List (Op T))
    (hrest : NoSend rest) :
    (runOps (channel T).2 (List.replicate n Op.clone ++ rest)).try_recv
      = none := by
  show (runOps (channel T).2 (List.replicate n Op.clone ++ rest)).value = none
  rw [runOps_value, lastValue_append, lastValue_noSend _ rest hrest,
    lastValue_noSend _ _ (noSend_replicate_clone n)]
  rfl

theorem try_recv_none_before_send_witness :
    NoSend ([Op.tryRecv, Op.tryRecv] : List (Op Nat)) ∧
    (runOps (channel Nat).2
      (List.replicate 3 Op.clone ++ [Op.tryRecv, Op.tryRecv])).try_recv = none :=
  ⟨by intro v hv; simp at hv,
    try_recv_none_before_send 3 [Op.tryRecv, Op.tryRecv]
      (by intro v hv; simp at hv)⟩

/-- C3: along every history reachable through the public interface (at
most one `send`, because the `Sender` is single-use), the cell's `value`
field at any prefix is either empty or `some v` for the value `v` of a
send that already happened, and no two observations at different times
yield two different non-empty values. -/
theorem value_write_once_invariant {T : Type} (ops p q : List (Op T))
    (hone : (sentValues ops).length ≤ 1)
    (hpq : p <+: q) (hq : q <+: ops) :
    ((runOps (channel T).2 p).value = none ∨
      ∃ v, (runOps (channel T).2 p).value = some v ∧ Op.send v ∈ p) ∧
    (∀ a b, (runOps (channel T).2 p).value = some a →
      (runOps (channel T).2 q).value = some b → a = b) := by
  have hvp : (runOps (channel T).2 p).value = lastValue none p := runOps_value _ _
  have hvq : (runOps (channel T).2 q).value = lastValue none q := runOps_value _ _
  constructor
  · cases hv : (runOps (channel T).2 p).value with
    | none => exact Or.inl rfl
    | some v =>
      refine Or.inr ⟨v, rfl, ?_⟩
      rcases lastValue_some_mem none p v (by rw [← hvp, hv]) with h | h
      · cases h
      · exact h
  · intro a b ha hb
    obtain ⟨r, hr⟩ := hpq
    obtain ⟨s, hs⟩ := hq
    have hla : lastValue none p = some a := by rw [← hvp, ha]
    have hlb : lastValue none q = some b := by rw [← hvq, hb]
    have hsend : Op.send a ∈ p := by
      rcases lastValue_some_mem none p a hla with h | h
      · cases h
      · exact h
    have hmemp : a ∈ sentValues p := (mem_sentValues a p).mpr hsend
    have hp1 : 0 < (sentValues p).length :=
      List.length_pos.mpr (List.ne_nil_of_mem hmemp)
    have hops : sentValues ops = sentValues p ++ sentValues r ++ sentValues s := by
      rw [← hs, ← hr, sentValues_append, sentValues_append]
    have hrnil : sentValues r = [] := by
      rw [hops] at hone
      simp [List.length_append] at hone
      refine List.length_eq_zero.mp ?_
      omega
    have hqa : lastValue none q = some a := by
      rw [← hr, lastValue_append, hla, lastValue_of_sentValues_nil _ r hrnil]
    rw [hqa] at hlb
    exact Option.some.inj hlb

theorem value_write_once_invariant_witness : (5 : Nat) = 5 :=
  (value_write_once_invariant [Op.clone, Op.send 5, Op.tryRecv]
    [Op.clone, Op.send 5] [Op.clone, Op.send 5, Op.tryRecv]
    (by decide) ⟨[Op.tryRecv], rfl⟩ (List.prefix_refl _)).2 5 5
    (by decide) (by decide)

/-- C4: the poll contract.  If the value is present, `poll` returns
`Ready` with (a clone of) that value and leaves the cell unchanged.  If
the value is absent, `poll` returns `Pending`; it appends the current
task's wake handle to the registry when no registered handle would wake
the same task, and leaves the registry unchanged when such a handle is
already registered. -/
theorem poll_contract_cases {T : Type} (c : _Receiver T) (w : Waker) :
    (∀ v, c.value = some v → Receiver.poll c w = (Poll.ready v, c)) ∧
    (c.value = none →
      (Receiver.poll c w).1 = Poll.pending ∧
      ((∀ w2 ∈ c.wakers, w2.willWake w = false) →
        (Receiver.poll c w).2 = { c with wakers := c.wakers ++ [w] }) ∧
      ((∃ w2 ∈ c.wakers, w2.willWake w = true) →
        (Receiver.poll c w).2 = c)) := by
  refine ⟨fun v hv => poll_of_value_some c w v hv, fun hv => ⟨?_, ?_, ?_⟩⟩
  · cases hg : (c.wakers.all fun w2 => ! w2.willWake w) with
    | true => rw [poll_of_value_none_fresh c w hv hg]
    | false => rw [poll_of_value_none_dup c w hv hg]
  · intro hall
    have hg : (c.wakers.all fun w2 => ! w2.willWake w) = true := by
      rw [List.all_eq_true]
      intro x hx
      simp [hall x hx]
    rw [poll_of_value_none_fresh c w hv hg]
  · rintro ⟨w2, hmem, hw⟩
    exact poll_already_registered c w w2 hmem hw

theorem poll_contract_cases_witness :
    (Receiver.poll ({ value := none, wakers := [] } : _Receiver Nat) ⟨0, 0⟩).2
      = { value := none, wakers := [⟨0, 0⟩] } :=
  ((poll_contract_cases ({ value := none, wakers := [] } : _Receiver Nat)
    ⟨0, 0⟩).2 rfl).2.1 (by intro w2 hw2; simp at hw2)

/-- C5: when `send` (via `set`) is called on a reachable cell, the
sequence of wake notifications it issues is exactly the registry at that
moment: every handle registered then is notified exactly once, and the
notifications are in registration order. -/
theorem set_notifies_in_registration_order {T : Type} (v : T)
    (ops : List (Op T)) :
    ((runOps (channel T).2 ops).set v).2 = (runOps (channel T).2 ops).wakers ∧
    ∀ w ∈ (runOps (channel T).2 ops).wakers,
      (((runOps (channel T).2 ops).set v).2).count w = 1 := by
  refine ⟨rfl, ?_⟩
  intro w hw
  have hok : WakersOk ((runOps (channel T).2 ops).wakers) :=
    runOps_wakers_pairwise _ ops List.Pairwise.nil
  exact List.count_eq_one_of_mem (wakersOk_nodup _ hok) hw

theorem set_notifies_in_registration_order_witness :
    (((runOps (channel Nat).2 [Op.poll ⟨0, 0⟩, Op.poll ⟨1, 0⟩]).set 7).2).count
      (⟨0, 0⟩ : Waker) = 1 :=
  (set_notifies_in_registration_order 7 [Op.poll ⟨0, 0⟩, Op.poll ⟨1, 0⟩]).2
    ⟨0, 0⟩ (by decide)

/-- C6 counterexample: `_Receiver::set` called on a cell whose value is
already set does reassign it — starting from a cell holding `some 0`,
`set 1` leaves the cell holding `some 1`, not the original `some 0`.  The
claim that `set` stores only if the value is not already set is therefore
false of the code. -/
theorem set_reassigns_counterexample :
    ((({ value := some 0, wakers := [] } : _Receiver Nat).set 1).1).value ≠ some 0 ∧
    ((({ value := some 0, wakers := [] } : _Receiver Nat).set 1).1).value = some 1 :=
  ⟨by decide, rfl⟩

/-- C6 amended: `set` stores the value unconditionally — after `set v`
the cell's value is `some v` whatever it held before (in both
src/src/shotgun.rs and src/src/lib.rs); calling `set` on an already-set
cell is avoided by construction via the single-use `Sender`, not by a
guard inside `set`. -/
theorem set_stores_unconditionally {T : Type} (c : _Receiver T) (v : T) :
    ((c.set v).1).value = some v ∧
    ∀ d : LibReceiver T, (d.set v).value = some v :=
  ⟨rfl, fun _ => rfl⟩

/-- C7: along every reachable history, the wake-handle registry never
contains two handles that would wake the same task; and a poll by a task
some of whose handles is already registered leaves the cell unchanged, so
repeated polls by one task add at most one entry in total. -/
theorem wakers_dedup_invariant {T : Type} (ops : List (Op T)) (w : Waker) :
    WakersOk ((runOps (channel T).2 ops).wakers) ∧
    ((∃ w2 ∈ (runOps (channel T).2 ops).wakers, w2.willWake w = true) →
      (Receiver.poll (runOps (channel T).2 ops) w).2
        = runOps (channel T).2 ops) := by
  refine ⟨runOps_wakers_pairwise _ ops List.Pairwise.nil, ?_⟩
  rintro ⟨w2, hmem, hw⟩
  exact poll_already_registered _ w w2 hmem hw

theorem wakers_dedup_invariant_witness :
    (Receiver.poll (runOps (channel Nat).2 [Op.poll ⟨0, 0⟩]) ⟨0, 1⟩).2
      = runOps (channel Nat).2 [Op.poll ⟨0, 0⟩] :=
  (wakers_dedup_invariant [Op.poll ⟨0, 0⟩] ⟨0, 1⟩).2 ⟨⟨0, 0⟩, by decide, by decide⟩

/-- C8: `Receiver::recv` (awaiting the receiver) is the loop that applies
the poll-style primitive until it yields `Ready` and then returns the
obtained value: it computes exactly the same result as the loop built from
the spec's poll contract, for every schedule of environment operations
between polls; and when it completes with value `v`, the shared cell holds
`some v`, so every other duplicate remains usable and observes the same
value by `try_recv`. -/
theorem recv_refines_poll_contract {T : Type} (w : Waker) (c : _Receiver T)
    (sched : List (List (Op T))) :
    Receiver.recv w c sched = recvContract w c sched ∧
    (∀ v c2, Receiver.recv w c sched = some (v, c2) → c2.try_recv = some v) :=
  ⟨recv_eq_recvContract w c sched,
    fun v c2 h => recv_some_value w c sched v c2 h⟩

theorem recv_refines_poll_contract_witness :
    ({ value := some 3, wakers := [] } : _Receiver Nat).try_recv = some 3 :=
  (recv_refines_poll_contract ⟨0, 0⟩
    ({ value := some 3, wakers := [] } : _Receiver Nat) [[]]).2 3
    ({ value := some 3, wakers := [] } : _Receiver Nat) (by decide)

/-- C9: `Ready` is terminal and repeatable — once a poll of the cell has
returned `Ready v`, every later poll, by the same task or by any other
task polling a duplicate, after any further history without a send (the
single send already happened for the value to be present), returns
`Ready v` again; the suspension state machine never regresses to
`Pending`. -/
theorem poll_ready_terminal {T : Type} (c : _Receiver T) (w w2 : Waker)
    (v : T) (ops : List (Op T))
    (hready : (Receiver.poll c w).1 = Poll.ready v) (hops : NoSend ops) :
    (Receiver.poll (runOps ((Receiver.poll c w).2) ops) w2).1
      = Poll.ready v := by
  have hv : c.value = some v := poll_fst_ready_value c w v hready
  have hsnd : (Receiver.poll c w).2 = c := by
    rw [poll_of_value_some c w v hv]
  rw [hsnd]
  have hval : (runOps c ops).value = some v := by
    rw [runOps_value, lastValue_noSend _ ops hops, hv]
  rw [poll_of_value_some _ w2 v hval]

theorem poll_ready_terminal_witness :
    (Receiver.poll
      (runOps ((Receiver.poll
        ({ value := some 9, wakers := [] } : _Receiver Nat) ⟨0, 0⟩).2)
        [Op.tryRecv, Op.clone]) ⟨1, 0⟩).1 = Poll.ready 9 :=
  poll_ready_terminal ({ value := some 9, wakers := [] } : _Receiver Nat)
    ⟨0, 0⟩ ⟨1, 0⟩ 9 [Op.tryRecv, Op.clone] (by decide)
    (by intro v hv; simp at hv)

/-- C10: `set` mutates only the `value` field of the cell: the resulting
cell is the input cell with `value := some v` and the `wakers` collection
unchanged — all registered handles are physically retained, in order,
after the send completes. -/
theorem set_preserves_wakers {T : Type} (c : _Receiver T) (v : T) :
    (c.set v).1 = { value := some v, wakers := c.wakers } ∧
    ((c.set v).1).wakers = c.wakers :=
  ⟨rfl, rfl⟩
